import Mathlib

set_option maxHeartbeats 800000

/-!
Shallow embedding of the editable-unit component ("Block",
src/components/block/index.ts) and of the read-only coordinator
("Removeble", src/components/modules/removeble.ts), together with
theorems settling the behavioural claims about them.

DOM values, tool instances and tune instances are external to the two
source files; they are modelled by the observable behaviour the source
code probes on them (element-ness and the `data-mutation-free` marker of
a DOM node, the outcome of an optional hook, the list of editable
regions found inside the holder).  Asynchronous results (`await`ed
promises) are modelled by `Except`: `ok` for fulfilment and `error` for
a rejection or a thrown exception.
-/

/-- Decidable equality for `Except`, used to evaluate the models on
concrete inputs. -/
instance {ε α : Type} [DecidableEq ε] [DecidableEq α] : DecidableEq (Except ε α) := fun x y =>
  match x, y with
  | Except.ok a, Except.ok b =>
    if h : a = b then isTrue (by rw [h]) else isFalse (by intro hc; cases hc; exact h rfl)
  | Except.error a, Except.error b =>
    if h : a = b then isTrue (by rw [h]) else isFalse (by intro hc; cases hc; exact h rfl)
  | Except.ok _, Except.error _ => isFalse (by intro hc; cases hc)
  | Except.error _, Except.ok _ => isFalse (by intro hc; cases hc)

namespace Block

/-- A DOM node as the debounced mutation handler observes it: whether it
is an Element, and whether `dataset.mutationFree === "true"` holds. -/
structure DomNode where
  isElement : Bool
  mutationFree : Bool
  deriving DecidableEq

/-- One entry of a MutationObserver batch: the added and removed nodes. -/
structure MutationRec where
  addedNodes : List DomNode
  removedNodes : List DomNode
  deriving DecidableEq

/-- Test performed on each added/removed node by the handler:
`$.isElement(node) && node.dataset.mutationFree === "true"`. -/
def isMutationFreeNode (n : DomNode) : Bool :=
  n.isElement && n.mutationFree

/-- The four downstream effects of the debounced mutation handler:
dropping the cached input list, re-resolving the current input from the
live selection, firing the tool `updated` hook, and emitting the
internal `didMutated` event. -/
structure MutationEffects where
  cacheDropped : Bool
  currentInputUpdated : Bool
  updatedHookCalled : Bool
  didMutatedEmitted : Bool
  deriving DecidableEq

/-- No downstream effect happened (the early-returned batch). -/
def noEffects : MutationEffects :=
  { cacheDropped := false, currentInputUpdated := false
    updatedHookCalled := false, didMutatedEmitted := false }

/-- All four downstream effects happened. -/
def allEffects : MutationEffects :=
  { cacheDropped := true, currentInputUpdated := true
    updatedHookCalled := true, didMutatedEmitted := true }

/-- Body of the debounced handler `didMutated` (block/index.ts, lines
229-255).  `shouldFireUpdate` is the negation of `mutations.some(...)`
over the added and removed nodes; when it is false the handler returns
early with no effect, otherwise it performs all four effects. -/
def didMutated (mutations : List MutationRec) : MutationEffects :=
  let shouldFireUpdate :=
    !(mutations.any fun m => (m.addedNodes ++ m.removedNodes).any isMutationFreeNode)
  if !shouldFireUpdate then
    noEffects
  else
    allEffects

/-- Wording of the claim under test: every added/removed node of the
batch is marked mutation-free. -/
def allAddedRemovedMutationFree (mutations : List MutationRec) : Bool :=
  mutations.all fun m => (m.addedNodes ++ m.removedNodes).all isMutationFreeNode

/-- Condition actually tested by the source: some added/removed node of
the batch is an element marked mutation-free. -/
def anyAddedRemovedMutationFree (mutations : List MutationRec) : Bool :=
  mutations.any fun m => (m.addedNodes ++ m.removedNodes).any isMutationFreeNode

end Block

namespace Removeble

/-- State of the read-only coordinator: the list of tool names that do
not support read-only mode (computed once in `prepare`) and the tracked
read-only flag `removebleEnabled`. -/
structure RemovebleState where
  toolsDontSupportReadOnly : List String
  removebleEnabled : Bool
  deriving DecidableEq

/-- Getter `isEnabled` of the coordinator. -/
def isEnabled (s : RemovebleState) : Bool :=
  s.removebleEnabled

/-- Message of the `CriticalError` thrown by `throwCriticalError`
(removeble.ts, lines 110-114). -/
def criticalErrorMessage (tools : List String) : String :=
  "To enable read-only mode all connected tools should support it. Tools " ++
    String.intercalate ", " tools ++ " don\x27t support read-only mode."

/-- Observable outcome of one `toggle` call: the value returned or the
error thrown, the coordinator state afterwards, the list of arguments
passed to the `toggleReadOnly` hooks of the modules exposing one (in
visiting order), and how many save-clear-render reload cycles ran. -/
structure ToggleResult where
  outcome : Except String Bool
  finalState : RemovebleState
  hookCalls : List Bool
  reloadCount : Nat
  deriving DecidableEq

/-- Embedding of `Removeble.toggle` (removeble.ts, lines 66-105).
`modulesWithHook` counts the editor modules that expose a
`toggleReadOnly` hook; modules without one are skipped by the loop.  The
critical error is thrown before the state is written, before the hook
broadcast and before any reload; the broadcast happens before the
equal-state early return; the reload cycle runs only when the state
changed. -/
def toggle (s : RemovebleState) (modulesWithHook : Nat) (state : Bool) : ToggleResult :=
  if state && decide (s.toolsDontSupportReadOnly.length > 0) then
    { outcome := Except.error (criticalErrorMessage s.toolsDontSupportReadOnly)
      finalState := s
      hookCalls := []
      reloadCount := 0 }
  else
    let oldState := s.removebleEnabled
    let s2 : RemovebleState := { s with removebleEnabled := state }
    let hookCalls := List.replicate modulesWithHook state
    if oldState == state then
      { outcome := Except.ok s2.removebleEnabled
        finalState := s2
        hookCalls := hookCalls
        reloadCount := 0 }
    else
      { outcome := Except.ok s2.removebleEnabled
        finalState := s2
        hookCalls := hookCalls
        reloadCount := 1 }

/-- Call of `toggle` with its argument omitted: the target defaults to
the negation of the current state. -/
def toggleDefault (s : RemovebleState) (modulesWithHook : Nat) : ToggleResult :=
  toggle s modulesWithHook (!s.removebleEnabled)

end Removeble

namespace Block

/-- Assignment `m[k] = v` on a JavaScript object or `Map.set(k, v)`,
with the bindings listed in key-insertion order: an existing key keeps
its position and gets the new value, a fresh key is appended. -/
def setKey {β : Type} : List (String × β) → String → β → List (String × β)
  | [], k, v => [(k, v)]
  | (k', v') :: rest, k, v =>
    if k' = k then (k, v) :: rest else (k', v') :: setKey rest k v

/-- Read `m[k]` on a JavaScript object (in insertion-order listing). -/
def lookupKey {β : Type} : List (String × β) → String → Option β
  | [], _ => none
  | (k', v') :: rest, k => if k' = k then some v' else lookupKey rest k

/-- Test `map.has(k)` on a JavaScript Map in the same representation. -/
def hasKey {β : Type} : List (String × β) → String → Bool
  | [], _ => false
  | (k', _) :: rest, k => if k' = k then true else hasKey rest k

/-- Behaviour of a tune instance when the save loop probes its `save`
member: the member is absent, or calling it throws, or it returns a
payload. -/
inductive TuneSaveHook (β : Type) where
  | noSave
  | throws
  | retVal (d : β)
  deriving DecidableEq

/-- One tune of the tool descriptor, as `composeTunes` consumes it: its
unique name, its `isInternal` flag, and the save behaviour of the
instance its factory creates. -/
structure TuneTool (β : Type) where
  name : String
  isInternal : Bool
  saveHook : TuneSaveHook β
  deriving DecidableEq

/-- First loop of `composeTunes` (block/index.ts, lines 992-997): every
declared tune is instantiated and routed by its `isInternal` flag into
the `defaultTunesInstances` map or the `tunesInstances` map. -/
def composeTunesLoop {β : Type} (u d : List (String × TuneSaveHook β)) :
    List (TuneTool β) → List (String × TuneSaveHook β) × List (String × TuneSaveHook β)
  | [] => (u, d)
  | t :: rest =>
    if t.isInternal then composeTunesLoop u (setKey d t.name t.saveHook) rest
    else composeTunesLoop (setKey u t.name t.saveHook) d rest

/-- Second loop of `composeTunes` (block/index.ts, lines 1002-1006):
every entry of the persisted tunes data whose name is not a key of
`tunesInstances` is copied into `unavailableTunesData`. -/
def unavailableLoop {β γ : Type} (u : List (String × γ)) (acc : List (String × β)) :
    List (String × β) → List (String × β)
  | [] => acc
  | (n, d) :: rest =>
    if hasKey u n then unavailableLoop u acc rest
    else unavailableLoop u (setKey acc n d) rest

/-- Content of `unavailableTunesData` right after `composeTunes` ran
with user-tune instances `u` and persisted data `tunesData`. -/
def unavailableTunesDataOf {β γ : Type} (u : List (String × γ))
    (tunesData : List (String × β)) : List (String × β) :=
  unavailableLoop u [] tunesData

/-- State of a Block as far as `save` observes it: its id, its tool
name, the outcome of awaiting `toolInstance.save(...)` on the current
content, the two tune-instance maps, and the retained
`unavailableTunesData`. -/
structure BlockState (α β : Type) where
  id : String
  name : String
  toolSaveResult : Except String α
  tunesInstances : List (String × TuneSaveHook β)
  defaultTunesInstances : List (String × TuneSaveHook β)
  unavailableTunesData : List (String × β)
  deriving DecidableEq

/-- Construction of a Block from a tool descriptor: `composeTunes` runs
with the declared tunes and the persisted tunes data (block/index.ts,
line 301). -/
def mkBlock {α β : Type} (id name : String) (toolSaveResult : Except String α)
    (tunes : List (TuneTool β)) (tunesData : List (String × β)) : BlockState α β :=
  let colls := composeTunesLoop [] [] tunes
  { id := id
    name := name
    toolSaveResult := toolSaveResult
    tunesInstances := colls.1
    defaultTunesInstances := colls.2
    unavailableTunesData := unavailableTunesDataOf colls.1 tunesData }

/-- Tune-save loop of `save` (block/index.ts, lines 610-622): iterating
the user tunes and then the internal tunes, each tune exposing a `save`
member is asked for its payload; a returned payload is assigned into the
accumulating map, a thrown error leaves the map untouched. -/
def applyTuneSaves {β : Type} (acc : List (String × β)) :
    List (String × TuneSaveHook β) → List (String × β)
  | [] => acc
  | (_, TuneSaveHook.noSave) :: rest => applyTuneSaves acc rest
  | (_, TuneSaveHook.throws) :: rest => applyTuneSaves acc rest
  | (n, TuneSaveHook.retVal d) :: rest => applyTuneSaves (setKey acc n d) rest

/-- Warning logged when a tune save hook throws (block/index.ts,
line 619).  The source prints the constructor name of the tune class;
the tune is identified here by its registered name. -/
def tuneSaveThrowMsg (n : String) : String :=
  "Tune " ++ n ++ " save method throws an Error"

/-- Log entries produced by the tune-save loop, in loop order. -/
def tuneSaveLogs {β : Type} : List (String × TuneSaveHook β) → List String
  | [] => []
  | (_, TuneSaveHook.noSave) :: rest => tuneSaveLogs rest
  | (n, TuneSaveHook.throws) :: rest => tuneSaveThrowMsg n :: tuneSaveLogs rest
  | (_, TuneSaveHook.retVal _) :: rest => tuneSaveLogs rest

/-- Saved record resolved by `save`: `{id, tool, data, tunes, time}`. -/
structure SavedData (α β : Type) where
  id : String
  tool : String
  data : α
  tunes : List (String × β)
  time : Nat
  deriving DecidableEq

/-- Observable outcome of one `save()` call: the settled value of the
returned promise (`error` when the promise rejects), the content of the
`unavailableTunesData` field afterwards, and the log entries written. -/
structure SaveOutcome (α β : Type) where
  result : Except String (SavedData α β)
  newUnavailableTunesData : List (String × β)
  logs : List String
  deriving DecidableEq

/-- Embedding of `Block.save` (block/index.ts, lines 606-646).  The tool
extraction is awaited first; a rejection there escapes from `save` at
the `await` and nothing further runs — the trailing `.catch` is attached
to `Promise.resolve` of the already-awaited value, so it never observes
the extraction failure.  On success the local `tunesData` is the very
`unavailableTunesData` object (no copy), the tune-save loop assigns into
it, and the resolved record carries it as `tunes` together with the
measured extraction time. -/
def save {α β : Type} (b : BlockState α β) (elapsed : Nat) : SaveOutcome α β :=
  match b.toolSaveResult with
  | Except.error e =>
    { result := Except.error e
      newUnavailableTunesData := b.unavailableTunesData
      logs := [] }
  | Except.ok extracted =>
    let instances := b.tunesInstances ++ b.defaultTunesInstances
    let tunesData := applyTuneSaves b.unavailableTunesData instances
    { result := Except.ok
        { id := b.id
          tool := b.name
          data := extracted
          tunes := tunesData
          time := elapsed }
      newUnavailableTunesData := tunesData
      logs := tuneSaveLogs instances }

/-- Behaviour of an optional member of the tool instance when the Block
calls it: the member is absent, or invoking it throws the given message,
or it completes with a value. -/
inductive Hook (α : Type) where
  | absent
  | throws (msg : String)
  | impl (a : α)
  deriving DecidableEq

/-- Embedding of `Block.mergeWith` (block/index.ts, lines 596-598):
`await this.toolInstance.merge(data)` with no try/catch around it.  A
thrown error or rejection propagates to the caller; an absent `merge`
member makes the call itself throw a TypeError. -/
def mergeWith (merge : Hook Unit) : Except String Unit :=
  match merge with
  | Hook.absent => Except.error "TypeError: this.toolInstance.merge is not a function"
  | Hook.throws m => Except.error m
  | Hook.impl _ => Except.ok ()

/-- Embedding of `Block.validate` (block/index.ts, lines 657-665):
`isValid` defaults to true; when the tool exposes a `validate` member it
is awaited with no try/catch, so a thrown error or rejection propagates.
The hook argument is the behaviour of `toolInstance.validate` on the
data being validated, `impl b` meaning it resolves with verdict `b`. -/
def validate (vHook : Hook Bool) : Except String Bool :=
  match vHook with
  | Hook.absent => Except.ok true
  | Hook.throws m => Except.error m
  | Hook.impl b => Except.ok b

/-- Embedding of the tool part of `Block.destroy` (block/index.ts, lines
736-742): after the dispatcher teardown, `toolInstance.destroy()` is
called when present, with no try/catch, so a thrown error propagates. -/
def destroy (destroyHook : Hook Unit) : Except String Unit :=
  match destroyHook with
  | Hook.absent => Except.ok ()
  | Hook.throws m => Except.error m
  | Hook.impl _ => Except.ok ()

/-- Deprecation warning logged by `call` for the `appendCallback` hook
(block/index.ts, lines 575-579). -/
def deprecatedAppendCallbackMsg : String :=
  "appendCallback hook is deprecated and will be removed in the next major release. Use rendered hook instead"

/-- Embedding of `Block.call` (block/index.ts, lines 569-589): a named
tool method is invoked only when present, inside a try/catch, so the
call never throws; a caught error is logged.  The first component is the
(always successful) outcome, the second the log entries written. -/
def call (methodName : String) (hook : Hook Unit) : Except String Unit × List String :=
  match hook with
  | Hook.absent => (Except.ok (), [])
  | Hook.throws m =>
    (Except.ok (),
      (if methodName == "appendCallback" then [deprecatedAppendCallbackMsg] else []) ++
        ["Error during \x27" ++ methodName ++ "\x27 call: " ++ m])
  | Hook.impl _ =>
    (Except.ok (), if methodName == "appendCallback" then [deprecatedAppendCallbackMsg] else [])

/-- DOM subtree produced while composing the Block holder: the content
node rendered by the tool, possibly wrapped by tune wrappers. -/
inductive El where
  | content
  | wrapped (tuneName : String) (inner : El)
  deriving DecidableEq

/-- Behaviour of a tune instance when `compose` probes its `wrap`
member: the member is absent, or calling it throws, or it wraps the
argument into a new outer wrapper carrying the tune's name. -/
inductive WrapHook where
  | absent
  | throws (tuneName : String)
  | wraps (tuneName : String)
  deriving DecidableEq

/-- One iteration of the wrap loop of `compose` (block/index.ts, lines
853-862): tunes without a `wrap` member are skipped, a thrown error is
caught and leaves the running node unchanged, otherwise the running node
is replaced by the tune's wrapper around it. -/
def applyWrapHook (acc : El) : WrapHook → El
  | WrapHook.absent => acc
  | WrapHook.throws _ => acc
  | WrapHook.wraps n => El.wrapped n acc

/-- Warning logged when a tune wrap hook throws (block/index.ts,
line 859), the tune identified by its name. -/
def wrapThrowMsg (n : String) : String :=
  "Tune " ++ n ++ " wrap method throws an Error"

/-- Log entries produced by the wrap loop, in loop order. -/
def wrapLogMsgs : List WrapHook → List String
  | [] => []
  | WrapHook.absent :: rest => wrapLogMsgs rest
  | WrapHook.throws n :: rest => wrapThrowMsg n :: wrapLogMsgs rest
  | WrapHook.wraps _ :: rest => wrapLogMsgs rest

/-- Wrap loop of `compose`: `wrappedContentNode` starts as the content
node and is threaded through the tune list. -/
def composeWrapLoop : El → List WrapHook → El
  | acc, [] => acc
  | acc, h :: rest => composeWrapLoop (applyWrapHook acc h) rest

/-- Wrapped content node built by `compose` (block/index.ts, lines
850-862): the loop runs over the user tunes followed by the internal
tunes. -/
def compose (userTunes internalTunes : List WrapHook) (contentNode : El) : El :=
  composeWrapLoop contentNode (userTunes ++ internalTunes)

/-- Names of the tunes whose wrap hook actually wraps, in order. -/
def wrapNames : List WrapHook → List String
  | [] => []
  | WrapHook.absent :: rest => wrapNames rest
  | WrapHook.throws _ :: rest => wrapNames rest
  | WrapHook.wraps n :: rest => n :: wrapNames rest

/-- Nesting described by the specification: a left fold wrapping the
content with each named tune in turn, the last name outermost. -/
def nestSpec (names : List String) (c : El) : El :=
  names.foldl (fun e n => El.wrapped n e) c

/-- Input-tracking state of a Block: the cached list of editable regions
and the tracked focused-input index.  Regions are identified by numbers;
the index is an integer because the clamping in the `inputs` getter can
drive it to -1. -/
structure InputsState where
  cachedInputs : List Nat
  inputIndex : Int
  deriving DecidableEq

/-- JavaScript array indexing `l[i]`: `undefined` (here `none`) for a
negative or too-large index, never a thrown error. -/
def jsIndex (l : List Nat) (i : Int) : Option Nat :=
  if i < 0 then none else l.get? i.toNat

/-- Embedding of the `inputs` getter (block/index.ts, lines 311-334):
a non-empty cache is returned as is; otherwise the live list found by
`$.findAllInputs(this.holder)` (the `live` argument) is taken, the
tracked index is clamped down to `length - 1` when it exceeds it, and
the list is cached.  Returns the list and the updated state. -/
def inputs (s : InputsState) (live : List Nat) : List Nat × InputsState :=
  if s.cachedInputs.length ≠ 0 then
    (s.cachedInputs, s)
  else
    let idx :=
      if s.inputIndex > (live.length : Int) - 1 then (live.length : Int) - 1
      else s.inputIndex
    (live, { cachedInputs := live, inputIndex := idx })

/-- Embedding of the `currentInput` getter (block/index.ts, lines
341-343): `this.inputs[this.inputIndex]`, where reading `this.inputs`
first may clamp the index. -/
def currentInput (s : InputsState) (live : List Nat) : Option Nat × InputsState :=
  let r := inputs s live
  (jsIndex r.1 r.2.inputIndex, r.2)

/-- Concrete Block whose tool extraction rejects with "boom", while a
user tune would have had a payload to contribute. -/
def failingToolBlock : BlockState Nat Nat :=
  { id := "b1"
    name := "para"
    toolSaveResult := Except.error "boom"
    tunesInstances := [("anchor", TuneSaveHook.retVal 7)]
    defaultTunesInstances := []
    unavailableTunesData := [("ghost", 3)] }

/-- Concrete Block with a succeeding tool extraction, two user tunes
(one whose save hook throws), one internal tune, and retained data of an
unavailable tune. -/
def exampleBlock : BlockState Nat Nat :=
  { id := "b2"
    name := "para"
    toolSaveResult := Except.ok 5
    tunesInstances := [("align", TuneSaveHook.retVal 1), ("broken", TuneSaveHook.throws)]
    defaultTunesInstances := [("anchor", TuneSaveHook.retVal 2)]
    unavailableTunesData := [("ghost", 9)] }

end Block

/-!
Helper lemmas about the JavaScript-object operations and the loops of
the Block model.
-/

namespace Block

theorem lookupKey_setKey_self {β : Type} (m : List (String × β)) (k : String) (v : β) :
    lookupKey (setKey m k v) k = some v := by
  induction m with
  | nil => simp [setKey, lookupKey]
  | cons p rest ih =>
    obtain ⟨k', v'⟩ := p
    by_cases h : k' = k
    · simp [setKey, h, lookupKey]
    · simp [setKey, h, lookupKey, ih]

theorem lookupKey_setKey_ne {β : Type} (m : List (String × β)) {k' k : String} (v : β)
    (h : k' ≠ k) : lookupKey (setKey m k' v) k = lookupKey m k := by
  induction m with
  | nil => simp [setKey, lookupKey, h]
  | cons p rest ih =>
    obtain ⟨k0, v0⟩ := p
    by_cases h0 : k0 = k'
    · subst h0
      simp [setKey, lookupKey, h]
    · by_cases h1 : k0 = k
      · subst h1
        simp [setKey, h0, lookupKey]
      · simp [setKey, h0, lookupKey, h1, ih]

theorem isSome_lookupKey_setKey {β : Type} (m : List (String × β)) (k n : String) (d : β)
    (h : (lookupKey m k).isSome) : (lookupKey (setKey m n d) k).isSome := by
  by_cases hnk : n = k
  · subst hnk
    simp [lookupKey_setKey_self]
  · rw [lookupKey_setKey_ne m d hnk]
    exact h

theorem mem_setKey {β : Type} {m : List (String × β)} {k : String} {v : β} {p : String × β}
    (h : p ∈ setKey m k v) : p ∈ m ∨ p = (k, v) := by
  induction m with
  | nil =>
    simp [setKey] at h
    right
    simp [h]
  | cons q rest ih =>
    obtain ⟨k0, v0⟩ := q
    by_cases h0 : k0 = k
    · simp only [setKey, if_pos h0] at h
      rcases List.mem_cons.mp h with h1 | h1
      · right; exact h1
      · left; exact List.mem_cons_of_mem _ h1
    · simp only [setKey, if_neg h0] at h
      rcases List.mem_cons.mp h with h1 | h1
      · left; rw [h1]; exact List.mem_cons_self _ _
      · rcases ih h1 with h2 | h2
        · left; exact List.mem_cons_of_mem _ h2
        · right; exact h2

theorem hasKey_eq_false {β : Type} (m : List (String × β)) (B : String)
    (h : ∀ p ∈ m, p.1 ≠ B) : hasKey m B = false := by
  induction m with
  | nil => rfl
  | cons p rest ih =>
    obtain ⟨k, v⟩ := p
    have hk : k ≠ B := h (k, v) (List.mem_cons_self _ _)
    simpa [hasKey, hk] using ih fun q hq => h q (List.mem_cons_of_mem _ hq)

theorem applyTuneSaves_lookup_of_ne {β : Type} (ts : List (String × TuneSaveHook β)) :
    ∀ (init : List (String × β)) (k : String), (∀ p ∈ ts, p.1 ≠ k) →
      lookupKey (applyTuneSaves init ts) k = lookupKey init k := by
  induction ts with
  | nil => intro init k _; rfl
  | cons p rest ih =>
    obtain ⟨n, hook⟩ := p
    intro init k h
    have hn : n ≠ k := h (n, hook) (List.mem_cons_self _ _)
    have hrest : ∀ q ∈ rest, q.1 ≠ k := fun q hq => h q (List.mem_cons_of_mem _ hq)
    cases hook with
    | noSave => simpa [applyTuneSaves] using ih init k hrest
    | throws => simpa [applyTuneSaves] using ih init k hrest
    | retVal d =>
      rw [show applyTuneSaves init ((n, TuneSaveHook.retVal d) :: rest) =
            applyTuneSaves (setKey init n d) rest from rfl]
      rw [ih _ k hrest, lookupKey_setKey_ne init d hn]

theorem applyTuneSaves_lookup_retVal {β : Type} (ts : List (String × TuneSaveHook β)) :
    ∀ (init : List (String × β)) (k : String) (d : β),
      (k, TuneSaveHook.retVal d) ∈ ts → (ts.map Prod.fst).Nodup →
      lookupKey (applyTuneSaves init ts) k = some d := by
  induction ts with
  | nil => intro init k d h _; cases h
  | cons p rest ih =>
    obtain ⟨n, hook⟩ := p
    intro init k d hmem hnd
    rw [List.map_cons, List.nodup_cons] at hnd
    rcases List.mem_cons.mp hmem with heq | hmem'
    · cases heq
      have hrest : ∀ q ∈ rest, q.1 ≠ n := by
        intro q hq hqk
        have hmm : q.1 ∈ rest.map Prod.fst := List.mem_map_of_mem Prod.fst hq
        rw [hqk] at hmm
        exact hnd.1 hmm
      rw [show applyTuneSaves init ((n, TuneSaveHook.retVal d) :: rest) =
            applyTuneSaves (setKey init n d) rest from rfl]
      rw [applyTuneSaves_lookup_of_ne rest _ n hrest, lookupKey_setKey_self]
    · have hnk : n ≠ k := by
        intro hc
        subst hc
        have hmm : (n, TuneSaveHook.retVal d).1 ∈ rest.map Prod.fst :=
          List.mem_map_of_mem Prod.fst hmem'
        exact hnd.1 hmm
      cases hook with
      | noSave => simpa [applyTuneSaves] using ih init k d hmem' hnd.2
      | throws => simpa [applyTuneSaves] using ih init k d hmem' hnd.2
      | retVal d' => simpa [applyTuneSaves] using ih (setKey init n d') k d hmem' hnd.2

theorem applyTuneSaves_lookup_no_retVal {β : Type} (ts : List (String × TuneSaveHook β)) :
    ∀ (init : List (String × β)) (k : String), (∀ d : β, (k, TuneSaveHook.retVal d) ∉ ts) →
      lookupKey (applyTuneSaves init ts) k = lookupKey init k := by
  induction ts with
  | nil => intro init k _; rfl
  | cons p rest ih =>
    obtain ⟨n, hook⟩ := p
    intro init k h
    have hrest : ∀ d : β, (k, TuneSaveHook.retVal d) ∉ rest := fun d hd =>
      h d (List.mem_cons_of_mem _ hd)
    cases hook with
    | noSave => simpa [applyTuneSaves] using ih init k hrest
    | throws => simpa [applyTuneSaves] using ih init k hrest
    | retVal d =>
      have hnk : n ≠ k := by
        intro hc
        subst hc
        exact h d (List.mem_cons_self _ _)
      rw [show applyTuneSaves init ((n, TuneSaveHook.retVal d) :: rest) =
            applyTuneSaves (setKey init n d) rest from rfl]
      rw [ih _ k hrest, lookupKey_setKey_ne init d hnk]

theorem applyTuneSaves_isSome {β : Type} (ts : List (String × TuneSaveHook β)) :
    ∀ (init : List (String × β)) (k : String), (lookupKey init k).isSome →
      (lookupKey (applyTuneSaves init ts) k).isSome := by
  induction ts with
  | nil => intro init k h; exact h
  | cons p rest ih =>
    obtain ⟨n, hook⟩ := p
    intro init k h
    cases hook with
    | noSave => simpa [applyTuneSaves] using ih init k h
    | throws => simpa [applyTuneSaves] using ih init k h
    | retVal d =>
      simpa [applyTuneSaves] using ih (setKey init n d) k (isSome_lookupKey_setKey init k n d h)

theorem tuneSaveLogs_mem {β : Type} (ts : List (String × TuneSaveHook β)) (n : String)
    (h : (n, TuneSaveHook.throws) ∈ ts) : tuneSaveThrowMsg n ∈ tuneSaveLogs ts := by
  induction ts with
  | nil => cases h
  | cons p rest ih =>
    obtain ⟨m, hook⟩ := p
    rcases List.mem_cons.mp h with heq | h'
    · cases heq
      simp [tuneSaveLogs]
    · cases hook with
      | noSave => simpa [tuneSaveLogs] using ih h'
      | throws => exact List.mem_cons_of_mem _ (ih h')
      | retVal d => simpa [tuneSaveLogs] using ih h'

theorem composeTunesLoop_key_ne {β : Type} (ts : List (TuneTool β)) (B : String) :
    ∀ (u d : List (String × TuneSaveHook β)), (∀ t ∈ ts, t.name ≠ B) →
      (∀ p ∈ u, p.1 ≠ B) → (∀ p ∈ d, p.1 ≠ B) →
      (∀ p ∈ (composeTunesLoop u d ts).1, p.1 ≠ B) ∧
        (∀ p ∈ (composeTunesLoop u d ts).2, p.1 ≠ B) := by
  induction ts with
  | nil => intro u d _ hu hd; exact ⟨hu, hd⟩
  | cons t rest ih =>
    intro u d hts hu hd
    have htn : t.name ≠ B := hts t (List.mem_cons_self _ _)
    have hrest : ∀ t' ∈ rest, t'.name ≠ B := fun t' h' => hts t' (List.mem_cons_of_mem _ h')
    have hset : ∀ (m : List (String × TuneSaveHook β)), (∀ p ∈ m, p.1 ≠ B) →
        ∀ p ∈ setKey m t.name t.saveHook, p.1 ≠ B := by
      intro m hm p hp
      rcases mem_setKey hp with h' | h'
      · exact hm p h'
      · rw [h']
        exact htn
    by_cases hint : t.isInternal
    · simpa [composeTunesLoop, hint] using
        ih u (setKey d t.name t.saveHook) hrest hu (hset d hd)
    · simpa [composeTunesLoop, hint] using
        ih (setKey u t.name t.saveHook) d hrest (hset u hu) hd

theorem unavailableLoop_lookup_of_not_mem {β γ : Type} (u : List (String × γ)) (B : String) :
    ∀ (l : List (String × β)) (acc : List (String × β)), B ∉ l.map Prod.fst →
      lookupKey (unavailableLoop u acc l) B = lookupKey acc B := by
  intro l
  induction l with
  | nil => intro acc _; rfl
  | cons p rest ih =>
    obtain ⟨n, d⟩ := p
    intro acc hB
    rw [List.map_cons] at hB
    have hnB : n ≠ B := by
      intro hc
      exact hB (by rw [hc]; exact List.mem_cons_self _ _)
    have hrest : B ∉ rest.map Prod.fst := fun hc => hB (List.mem_cons_of_mem _ hc)
    by_cases hu : hasKey u n = true
    · simpa [unavailableLoop, hu] using ih acc hrest
    · rw [show unavailableLoop u acc ((n, d) :: rest) =
            unavailableLoop u (setKey acc n d) rest from by simp [unavailableLoop, hu]]
      rw [ih _ hrest, lookupKey_setKey_ne acc d hnB]

theorem unavailableLoop_lookup_mem {β γ : Type} (u : List (String × γ)) (B : String)
    (payload : β) :
    ∀ (l : List (String × β)) (acc : List (String × β)),
      (B, payload) ∈ l → (l.map Prod.fst).Nodup → hasKey u B = false →
      lookupKey (unavailableLoop u acc l) B = some payload := by
  intro l
  induction l with
  | nil => intro acc h _ _; cases h
  | cons p rest ih =>
    obtain ⟨n, d⟩ := p
    intro acc hmem hnd huB
    rw [List.map_cons, List.nodup_cons] at hnd
    rcases List.mem_cons.mp hmem with heq | hmem'
    · cases heq
      rw [show unavailableLoop u acc ((B, payload) :: rest) =
            unavailableLoop u (setKey acc B payload) rest from by simp [unavailableLoop, huB]]
      rw [unavailableLoop_lookup_of_not_mem u B rest _ hnd.1, lookupKey_setKey_self]
    · by_cases hu : hasKey u n = true
      · simpa [unavailableLoop, hu] using ih acc hmem' hnd.2 huB
      · rw [show unavailableLoop u acc ((n, d) :: rest) =
              unavailableLoop u (setKey acc n d) rest from by simp [unavailableLoop, hu]]
        exact ih _ hmem' hnd.2 huB

end Block

/-- Decomposition through the accumulator loop of `String.intercalate`:
a string already inside the accumulator, or still ahead in the list,
occurs contiguously in the final result. -/
theorem intercalate_go_decomp (sep t : String) :
    ∀ (as : List String) (acc : String),
      (∃ x y, acc.data = x ++ t.data ++ y) ∨ t ∈ as →
      ∃ x y, (String.intercalate.go acc sep as).data = x ++ t.data ++ y := by
  intro as
  induction as with
  | nil =>
    intro acc h
    rcases h with h | h
    · simpa [String.intercalate.go] using h
    · cases h
  | cons a as ih =>
    intro acc h
    rw [show String.intercalate.go acc sep (a :: as) =
          String.intercalate.go (acc ++ sep ++ a) sep as from rfl]
    rcases h with ⟨x, y, hxy⟩ | h
    · refine ih (acc ++ sep ++ a) (Or.inl ?_)
      refine ⟨x, y ++ sep.data ++ a.data, ?_⟩
      simp [String.data_append, hxy]
    · rcases List.mem_cons.mp h with rfl | h'
      · refine ih (acc ++ sep ++ t) (Or.inl ?_)
        refine ⟨acc.data ++ sep.data, [], ?_⟩
        simp [String.data_append]
      · exact ih (acc ++ sep ++ a) (Or.inr h')

/-- Every member of the joined list occurs contiguously in the string
built by `String.intercalate`. -/
theorem mem_intercalate_decomp (sep t : String) (l : List String) (h : t ∈ l) :
    ∃ x y, (String.intercalate sep l).data = x ++ t.data ++ y := by
  cases l with
  | nil => cases h
  | cons a as =>
    rw [show String.intercalate sep (a :: as) = String.intercalate.go a sep as from rfl]
    rcases List.mem_cons.mp h with rfl | h'
    · exact intercalate_go_decomp sep t as t (Or.inl ⟨[], [], by simp⟩)
    · exact intercalate_go_decomp sep t as a (Or.inr h')

/-!
Claim theorems.
-/

/-- C1, counterexample: the claim states a batch is ignored if and only
if EVERY added/removed node is mutation-free, and that a batch not
entirely mutation-free produces all four downstream effects.  In the
batch below one added node is mutation-free and the other is not, so the
batch is not entirely mutation-free, yet the handler ignores it
entirely. -/
theorem c1_counterexample :
    Block.didMutated
        [{ addedNodes := [{ isElement := true, mutationFree := true },
                          { isElement := true, mutationFree := false }]
           removedNodes := [] }] = Block.noEffects
      ∧ Block.allAddedRemovedMutationFree
          [{ addedNodes := [{ isElement := true, mutationFree := true },
                            { isElement := true, mutationFree := false }]
             removedNodes := [] }] = false := by
  decide

/-- C1, amended: a batch processed by the debounced mutation handler is
ignored entirely (no cache drop, no current-input re-resolution, no tool
updated hook, no didMutated emission) if and only if AT LEAST ONE
added/removed node in it is an element marked mutation-free; a batch
with no such node produces all four downstream effects. -/
theorem c1_mutation_free_gating (ms : List Block.MutationRec) :
    Block.didMutated ms =
      if Block.anyAddedRemovedMutationFree ms then Block.noEffects else Block.allEffects := by
  unfold Block.didMutated Block.anyAddedRemovedMutationFree
  cases h : ms.any fun m => (m.addedNodes ++ m.removedNodes).any Block.isMutationFreeNode <;>
    simp [h]

/-- C2, counterexample: the claim states that `toggle` with the already
active state invokes no subsystem toggleReadOnly hook.  With one module
exposing the hook and the state already disabled, `toggle(false)` does
invoke that hook (with `false`), although it indeed triggers no reload
cycle. -/
theorem c2_counterexample :
    (Removeble.toggle { toolsDontSupportReadOnly := [], removebleEnabled := false }
        1 false).hookCalls = [false]
      ∧ (Removeble.toggle { toolsDontSupportReadOnly := [], removebleEnabled := false }
          1 false).reloadCount = 0 := by
  decide

/-- C2, amended: calling `toggle(state)` with the state already active
(and, when enabling, the capability check passing) triggers no
save-clear-render reload cycle and returns the unchanged state, but it
does first broadcast `toggleReadOnly(state)` to every module exposing
the hook, once per module. -/
theorem c2_toggle_same_state (s : Removeble.RemovebleState) (n : Nat) (state : Bool)
    (hstate : state = s.removebleEnabled)
    (hsafe : state = true → s.toolsDontSupportReadOnly = []) :
    Removeble.toggle s n state =
      { outcome := Except.ok state
        finalState := { s with removebleEnabled := state }
        hookCalls := List.replicate n state
        reloadCount := 0 } := by
  subst hstate
  unfold Removeble.toggle
  have hcond : (s.removebleEnabled && decide (s.toolsDontSupportReadOnly.length > 0)) = false := by
    cases h : s.removebleEnabled
    · rfl
    · simp [hsafe h]
  simp [hcond]

/-- C2 witness: concrete instance of the amended theorem, with the state
already disabled, an empty not-supported set and two modules exposing
the hook. -/
theorem c2_toggle_same_state_witness :
    Removeble.toggle { toolsDontSupportReadOnly := [], removebleEnabled := false } 2 false =
      { outcome := Except.ok false
        finalState := { toolsDontSupportReadOnly := [], removebleEnabled := false }
        hookCalls := [false, false]
        reloadCount := 0 } :=
  c2_toggle_same_state { toolsDontSupportReadOnly := [], removebleEnabled := false } 2 false
    rfl (fun h => by cases h)

/-- C4: toggling towards enabled while the not-supported set is
non-empty throws the critical error before any side effect: the outcome
is the CriticalError whose message is built from the full offending
list (each offending tool name occurring verbatim in the message), the
reported state `isEnabled` is unchanged, no hook is invoked and no
reload cycle runs. -/
theorem c4_toggle_enable_unsupported_fails (s : Removeble.RemovebleState) (n : Nat)
    (h : s.toolsDontSupportReadOnly ≠ []) :
    Removeble.toggle s n true =
      { outcome := Except.error (Removeble.criticalErrorMessage s.toolsDontSupportReadOnly)
        finalState := s
        hookCalls := []
        reloadCount := 0 }
      ∧ Removeble.isEnabled (Removeble.toggle s n true).finalState = Removeble.isEnabled s
      ∧ ∀ t ∈ s.toolsDontSupportReadOnly,
          ∃ x y, (Removeble.criticalErrorMessage s.toolsDontSupportReadOnly).data =
            x ++ t.data ++ y := by
  have hlen : decide (s.toolsDontSupportReadOnly.length > 0) = true := by
    cases hc : s.toolsDontSupportReadOnly
    · exact absurd hc h
    · simp
  have heq : Removeble.toggle s n true =
      { outcome := Except.error (Removeble.criticalErrorMessage s.toolsDontSupportReadOnly)
        finalState := s
        hookCalls := []
        reloadCount := 0 } := by
    unfold Removeble.toggle
    simp [hlen]
  refine ⟨heq, by rw [heq], ?_⟩
  intro t ht
  obtain ⟨x, y, hxy⟩ := mem_intercalate_decomp ", " t _ ht
  refine ⟨("To enable read-only mode all connected tools should support it. Tools " : String).data
      ++ x, y ++ (" don\x27t support read-only mode." : String).data, ?_⟩
  simp [Removeble.criticalErrorMessage, String.data_append, hxy]

/-- C4 witness: one loaded tool "X" without read-only support, state
disabled; `toggle(true)` throws the critical error naming "X" and the
state stays disabled with no hook call and no reload. -/
theorem c4_toggle_enable_unsupported_fails_witness :
    (["X"] : List String) ≠ []
      ∧ Removeble.toggle { toolsDontSupportReadOnly := ["X"], removebleEnabled := false } 1 true =
          { outcome := Except.error (Removeble.criticalErrorMessage ["X"])
            finalState := { toolsDontSupportReadOnly := ["X"], removebleEnabled := false }
            hookCalls := []
            reloadCount := 0 } :=
  ⟨by decide,
    (c4_toggle_enable_unsupported_fails
      { toolsDontSupportReadOnly := ["X"], removebleEnabled := false } 1 (by decide)).1⟩

/-- Evaluation lemma for `save` on a Block whose tool extraction
succeeds. -/
theorem save_ok {α β : Type} (b : Block.BlockState α β) (e : Nat) (x : α)
    (hx : b.toolSaveResult = Except.ok x) :
    Block.save b e =
      { result := Except.ok
          { id := b.id
            tool := b.name
            data := x
            tunes := Block.applyTuneSaves b.unavailableTunesData
              (b.tunesInstances ++ b.defaultTunesInstances)
            time := e }
        newUnavailableTunesData := Block.applyTuneSaves b.unavailableTunesData
          (b.tunesInstances ++ b.defaultTunesInstances)
        logs := Block.tuneSaveLogs (b.tunesInstances ++ b.defaultTunesInstances) } := by
  unfold Block.save
  rw [hx]

/-- Membership of the wrap-throw warning in the wrap-loop log. -/
theorem wrapLogMsgs_mem (hooks : List Block.WrapHook) (T : String)
    (h : Block.WrapHook.throws T ∈ hooks) :
    Block.wrapThrowMsg T ∈ Block.wrapLogMsgs hooks := by
  induction hooks with
  | nil => cases h
  | cons a rest ih =>
    rcases List.mem_cons.mp h with heq | h'
    · cases heq
      simp [Block.wrapLogMsgs]
    · cases a with
      | absent => simpa [Block.wrapLogMsgs] using ih h'
      | throws n => exact List.mem_cons_of_mem _ (ih h')
      | wraps n => simpa [Block.wrapLogMsgs] using ih h'

/-- C3, evaluation of the code at the failing input: a Block whose tool
extraction rejects with "boom".  Contrary to the claim, `save()` does
not resolve to nothing: the rejection escapes from the `await` of
`toolInstance.save` to the caller of `save()`, nothing is logged (the
`.catch` that carries the failure log is attached to `Promise.resolve`
of the already-awaited value, so it is unreachable for extraction
failures), and the tune-save loop never runs. -/
theorem c3_tool_save_rejection_escapes :
    (Block.save Block.failingToolBlock 0).result = Except.error "boom"
      ∧ (Block.save Block.failingToolBlock 0).logs = []
      ∧ (Block.save Block.failingToolBlock 0).newUnavailableTunesData = [("ghost", 3)] := by
  decide

/-- C5, counterexample: the claim states that an error thrown inside any
of the user-extensible hooks save, wrap, validate, destroy, merge is
caught at the call site and does not propagate.  For the merge hook this
is false: `mergeWith` awaits `toolInstance.merge(data)` with no
try/catch, so the thrown error propagates to the caller. -/
theorem c5_counterexample :
    Block.mergeWith (Block.Hook.throws "merge boom") = Except.error "merge boom" := by
  rfl

/-- C5, amended: errors thrown inside a tune save hook or a tune wrap
hook, or inside a tool method dispatched through `call`, are caught and
logged at the call site and neither propagate nor cancel sibling hooks
or the overall operation; but errors thrown by the tool's merge,
validate and destroy hooks are not caught — they propagate to the
caller of `mergeWith`, `validate` and `destroy` respectively. -/
theorem c5_hook_fault_isolation :
    (∀ mname m : String, (Block.call mname (Block.Hook.throws m)).1 = Except.ok ()
        ∧ (Block.call mname (Block.Hook.throws m)).2 ≠ [])
      ∧ (∀ (b : Block.BlockState Nat Nat) (e x : Nat), b.toolSaveResult = Except.ok x →
          ∃ r, (Block.save b e).result = Except.ok r)
      ∧ (∀ (T : String) (ts : List (String × Block.TuneSaveHook Nat)),
          (T, Block.TuneSaveHook.throws) ∈ ts →
            Block.tuneSaveThrowMsg T ∈ Block.tuneSaveLogs ts)
      ∧ (∀ (acc : Block.El) (T : String),
          Block.applyWrapHook acc (Block.WrapHook.throws T) = acc)
      ∧ (∀ (hooks : List Block.WrapHook) (T : String), Block.WrapHook.throws T ∈ hooks →
          Block.wrapThrowMsg T ∈ Block.wrapLogMsgs hooks)
      ∧ (∀ m : String, Block.mergeWith (Block.Hook.throws m) = Except.error m)
      ∧ (∀ m : String, Block.validate (Block.Hook.throws m) = Except.error m)
      ∧ (∀ m : String, Block.destroy (Block.Hook.throws m) = Except.error m) := by
  refine ⟨?_, ?_, ?_, ?_, ?_, ?_, ?_, ?_⟩
  · intro mname m
    refine ⟨rfl, ?_⟩
    by_cases hm : mname == "appendCallback" <;> simp [Block.call, hm]
  · intro b e x hx
    rw [save_ok b e x hx]
    exact ⟨_, rfl⟩
  · intro T ts h
    exact Block.tuneSaveLogs_mem ts T h
  · intro acc T
    rfl
  · intro hooks T h
    exact wrapLogMsgs_mem hooks T h
  · intro m
    rfl
  · intro m
    rfl
  · intro m
    rfl

/-- C5 witness: concrete instances of all conjuncts of the amended
fault-isolation theorem. -/
theorem c5_hook_fault_isolation_witness :
    ((Block.call "updated" (Block.Hook.throws "boom")).1 = Except.ok ()
        ∧ (Block.call "updated" (Block.Hook.throws "boom")).2 ≠ [])
      ∧ (∃ r, (Block.save Block.exampleBlock 0).result = Except.ok r)
      ∧ Block.tuneSaveThrowMsg "broken" ∈ Block.tuneSaveLogs
          [("broken", (Block.TuneSaveHook.throws : Block.TuneSaveHook Nat))]
      ∧ Block.applyWrapHook Block.El.content (Block.WrapHook.throws "w") = Block.El.content
      ∧ Block.wrapThrowMsg "w" ∈ Block.wrapLogMsgs [Block.WrapHook.throws "w"]
      ∧ Block.mergeWith (Block.Hook.throws "m1") = Except.error "m1"
      ∧ Block.validate (Block.Hook.throws "m2") = Except.error "m2"
      ∧ Block.destroy (Block.Hook.throws "m3") = Except.error "m3" :=
  ⟨c5_hook_fault_isolation.1 "updated" "boom",
    c5_hook_fault_isolation.2.1 Block.exampleBlock 0 5 rfl,
    c5_hook_fault_isolation.2.2.1 "broken" _ (List.mem_cons_self _ _),
    c5_hook_fault_isolation.2.2.2.1 Block.El.content "w",
    c5_hook_fault_isolation.2.2.2.2.1 [Block.WrapHook.throws "w"] "w" (List.mem_cons_self _ _),
    c5_hook_fault_isolation.2.2.2.2.2.1 "m1",
    c5_hook_fault_isolation.2.2.2.2.2.2.1 "m2",
    c5_hook_fault_isolation.2.2.2.2.2.2.2 "m3"⟩

/-- C6: a Block constructed with persisted tune data carrying a payload
under a name matching no declared tune keeps that payload in
`unavailableTunesData`, and a subsequent successful `save()` re-emits it
unchanged under the same name in the result's tunes map. -/
theorem c6_unavailable_tune_roundtrip (id name : String) (x elapsed : Nat)
    (tunes : List (Block.TuneTool Nat)) (tunesData : List (String × Nat))
    (B : String) (payload : Nat)
    (hB : ∀ t ∈ tunes, t.name ≠ B)
    (hmem : (B, payload) ∈ tunesData)
    (hnd : (tunesData.map Prod.fst).Nodup) :
    ∃ r, (Block.save (Block.mkBlock id name (Except.ok x) tunes tunesData) elapsed).result
        = Except.ok r
      ∧ Block.lookupKey r.tunes B = some payload := by
  have hkeys := Block.composeTunesLoop_key_ne tunes B [] [] hB
    (fun p hp => absurd hp (List.not_mem_nil p)) (fun p hp => absurd hp (List.not_mem_nil p))
  have hinstB : ∀ p ∈ (Block.composeTunesLoop ([] : List (String × Block.TuneSaveHook Nat))
      [] tunes).1 ++ (Block.composeTunesLoop ([] : List (String × Block.TuneSaveHook Nat))
      [] tunes).2, p.1 ≠ B := by
    intro p hp
    rcases List.mem_append.mp hp with h' | h'
    · exact hkeys.1 p h'
    · exact hkeys.2 p h'
  have huB : Block.hasKey (Block.composeTunesLoop ([] : List (String × Block.TuneSaveHook Nat))
      [] tunes).1 B = false := Block.hasKey_eq_false _ B hkeys.1
  have hunav := Block.unavailableLoop_lookup_mem
    (Block.composeTunesLoop ([] : List (String × Block.TuneSaveHook Nat)) [] tunes).1
    B payload tunesData [] hmem hnd huB
  rw [save_ok (Block.mkBlock id name (Except.ok x) tunes tunesData) elapsed x rfl]
  refine ⟨_, rfl, ?_⟩
  have hpres := Block.applyTuneSaves_lookup_of_ne
    ((Block.composeTunesLoop ([] : List (String × Block.TuneSaveHook Nat)) [] tunes).1
      ++ (Block.composeTunesLoop ([] : List (String × Block.TuneSaveHook Nat)) [] tunes).2)
    (Block.unavailableTunesDataOf
      (Block.composeTunesLoop ([] : List (String × Block.TuneSaveHook Nat)) [] tunes).1 tunesData)
    B hinstB
  exact hpres.trans hunav

/-- C6 witness: one declared user tune "align" with its own payload, and
persisted data also carrying a payload under "B" which matches no
declared tune; the saved result re-emits B's payload unchanged. -/
theorem c6_unavailable_tune_roundtrip_witness :
    ∃ r, (Block.save (Block.mkBlock "b3" "para" (Except.ok 5)
          [{ name := "align", isInternal := false, saveHook := Block.TuneSaveHook.retVal 7 }]
          [("align", 1), ("B", 42)]) 3).result = Except.ok r
      ∧ Block.lookupKey r.tunes "B" = some 42 :=
  c6_unavailable_tune_roundtrip "b3" "para" 5 3
    [{ name := "align", isInternal := false, saveHook := Block.TuneSaveHook.retVal 7 }]
    [("align", 1), ("B", 42)] "B" 42 (by decide) (by decide) (by decide)

/-- C7: when one tune's save hook throws while the tool extraction
succeeds, `save()` still resolves to a full record (same id, tool name
and extracted data) containing every other tune's returned payload;
only the throwing tune's contribution is absent from the tunes map, and
the failure is logged. -/
theorem c7_tune_save_throw_isolated (b : Block.BlockState Nat Nat) (e x : Nat) (T : String)
    (hx : b.toolSaveResult = Except.ok x)
    (hT : (T, Block.TuneSaveHook.throws) ∈ b.tunesInstances ++ b.defaultTunesInstances)
    (hnd : ((b.tunesInstances ++ b.defaultTunesInstances).map Prod.fst).Nodup)
    (hTun : Block.lookupKey b.unavailableTunesData T = none) :
    ∃ r, (Block.save b e).result = Except.ok r
      ∧ r.id = b.id ∧ r.tool = b.name ∧ r.data = x
      ∧ (∀ (n : String) (d : Nat),
          (n, Block.TuneSaveHook.retVal d) ∈ b.tunesInstances ++ b.defaultTunesInstances →
            Block.lookupKey r.tunes n = some d)
      ∧ Block.lookupKey r.tunes T = none
      ∧ Block.tuneSaveThrowMsg T ∈ (Block.save b e).logs := by
  rw [save_ok b e x hx]
  refine ⟨_, rfl, rfl, rfl, rfl, ?_, ?_, ?_⟩
  · intro n d hmem
    exact Block.applyTuneSaves_lookup_retVal _ _ n d hmem hnd
  · have hnoret : ∀ d : Nat,
        (T, Block.TuneSaveHook.retVal d) ∉ b.tunesInstances ++ b.defaultTunesInstances := by
      intro d hd
      have heq := List.inj_on_of_nodup_map hnd hT hd rfl
      simp at heq
    rw [Block.applyTuneSaves_lookup_no_retVal _ _ T hnoret]
    exact hTun
  · exact Block.tuneSaveLogs_mem _ T hT

/-- C7 witness: `exampleBlock` has user tunes "align" (payload 1) and
"broken" (save throws) and internal tune "anchor" (payload 2); the save
result keeps the extracted data and the payloads of "align" and
"anchor", omits "broken", and the throw is logged. -/
theorem c7_tune_save_throw_isolated_witness :
    ∃ r, (Block.save Block.exampleBlock 4).result = Except.ok r
      ∧ r.id = Block.exampleBlock.id ∧ r.tool = Block.exampleBlock.name ∧ r.data = 5
      ∧ (∀ (n : String) (d : Nat),
          (n, Block.TuneSaveHook.retVal d) ∈
            Block.exampleBlock.tunesInstances ++ Block.exampleBlock.defaultTunesInstances →
            Block.lookupKey r.tunes n = some d)
      ∧ Block.lookupKey r.tunes "broken" = none
      ∧ Block.tuneSaveThrowMsg "broken" ∈ (Block.save Block.exampleBlock 4).logs :=
  c7_tune_save_throw_isolated Block.exampleBlock 4 5 "broken" rfl (by decide) (by decide)
    (by decide)

/-- C8, counterexample: the claim states that after the input list
shrinks below the tracked index the index is clamped to the last valid
position and `currentInput` resolves to the last valid input.  When the
recomputed list is empty there is no valid input at all: the index is
clamped to -1 (not a valid position) and `currentInput` is `undefined`
(`none`), not a last valid input. -/
theorem c8_counterexample :
    (Block.currentInput { cachedInputs := [], inputIndex := 2 } []).1 = none
      ∧ (Block.currentInput { cachedInputs := [], inputIndex := 2 } []).2.inputIndex = -1 := by
  decide

/-- C8, amended: recomputing the input list (empty cache) with the
tracked index above `length - 1` clamps the index to `length - 1` and
makes `currentInput` resolve to the last element of the recomputed list
— the last valid input when the list is non-empty, and `none`
(JavaScript `undefined`, with the index at -1) when the list shrank to
empty; in both cases the read is total: no throw and no out-of-range
access. -/
theorem c8_current_input_clamped (idx : Int) (live : List Nat)
    (hshrink : (live.length : Int) - 1 < idx) :
    (Block.currentInput { cachedInputs := [], inputIndex := idx } live).1 = live.getLast?
      ∧ (Block.currentInput { cachedInputs := [], inputIndex := idx } live).2 =
          { cachedInputs := live, inputIndex := (live.length : Int) - 1 } := by
  have hrec : Block.inputs { cachedInputs := [], inputIndex := idx } live =
      (live, { cachedInputs := live, inputIndex := (live.length : Int) - 1 }) := by
    unfold Block.inputs
    simp [hshrink]
  refine ⟨?_, ?_⟩
  · show Block.jsIndex (Block.inputs { cachedInputs := [], inputIndex := idx } live).1
        (Block.inputs { cachedInputs := [], inputIndex := idx } live).2.inputIndex =
      live.getLast?
    rw [hrec]
    rcases live with _ | ⟨a, rest⟩
    · simp [Block.jsIndex]
    · show Block.jsIndex (a :: rest) (((a :: rest).length : Int) - 1) = (a :: rest).getLast?
      unfold Block.jsIndex
      rw [List.length_cons]
      have h0 : ¬ (((rest.length + 1 : Nat) : Int) - 1 < 0) := by omega
      rw [if_neg h0]
      have htn : (((rest.length + 1 : Nat) : Int) - 1).toNat = rest.length + 1 - 1 := by omega
      rw [htn, show rest.length + 1 = (a :: rest).length from (List.length_cons a rest).symm,
        ← List.getLast?_eq_get?]
  · show (Block.inputs { cachedInputs := [], inputIndex := idx } live).2 = _
    rw [hrec]

/-- C8 witness: tracked index 5, recomputed list of two inputs: the
index clamps to 1 and `currentInput` resolves to the last input. -/
theorem c8_current_input_clamped_witness :
    (Block.currentInput { cachedInputs := [], inputIndex := 5 } [10, 20]).1 = some 20
      ∧ (Block.currentInput { cachedInputs := [], inputIndex := 5 } [10, 20]).2 =
          { cachedInputs := [10, 20], inputIndex := 1 } := by
  have h := c8_current_input_clamped 5 [10, 20] (by decide)
  simpa using h

/-- C9: the wrap loop of `compose` is a left fold of `applyWrapHook`
over the user tunes followed by the internal tunes, starting from the
tool's content node; tunes without a wrap hook (and tunes whose wrap
hook throws) are no-ops, and each wrapping tune produces a new outer
wrapper around the previous result, so the holder content is the
deterministic nesting tune_n around ... around tune_1 around content. -/
theorem c9_wrap_left_fold :
    (∀ (userTunes internalTunes : List Block.WrapHook) (c : Block.El),
        Block.compose userTunes internalTunes c =
          (userTunes ++ internalTunes).foldl Block.applyWrapHook c)
      ∧ (∀ (userTunes internalTunes : List Block.WrapHook) (c : Block.El),
          Block.compose userTunes internalTunes c =
            Block.nestSpec (Block.wrapNames (userTunes ++ internalTunes)) c)
      ∧ (∀ c : Block.El, Block.applyWrapHook c Block.WrapHook.absent = c) := by
  have hfold : ∀ (hooks : List Block.WrapHook) (c : Block.El),
      Block.composeWrapLoop c hooks = hooks.foldl Block.applyWrapHook c := by
    intro hooks
    induction hooks with
    | nil => intro c; rfl
    | cons h rest ih => intro c; simpa [Block.composeWrapLoop] using ih _
  have hnest : ∀ (hooks : List Block.WrapHook) (c : Block.El),
      Block.composeWrapLoop c hooks = Block.nestSpec (Block.wrapNames hooks) c := by
    intro hooks
    induction hooks with
    | nil => intro c; rfl
    | cons h rest ih =>
      intro c
      cases h with
      | absent =>
        simpa [Block.composeWrapLoop, Block.wrapNames, Block.applyWrapHook] using ih c
      | throws n =>
        simpa [Block.composeWrapLoop, Block.wrapNames, Block.applyWrapHook] using ih c
      | wraps n =>
        simpa [Block.composeWrapLoop, Block.wrapNames, Block.applyWrapHook,
          Block.nestSpec] using ih (Block.El.wrapped n c)
  exact ⟨fun u i c => hfold (u ++ i) c, fun u i c => hnest (u ++ i) c, fun c => rfl⟩

/-- C10: a successful `save()` writes through to the Block's persistent
`unavailableTunesData` store: the tunes map placed into the resolved
record is the very store content after the call (the source aliases the
object, so they are one and the same), every loaded tune's returned
payload is merged into that store, and no previously stored entry is
removed — so loaded-tune payloads accumulate in the store across
successive saves rather than the store holding only unloaded-tune
data. -/
theorem c10_save_mutates_unavailable_store (b : Block.BlockState Nat Nat) (e x : Nat)
    (hx : b.toolSaveResult = Except.ok x)
    (hnd : ((b.tunesInstances ++ b.defaultTunesInstances).map Prod.fst).Nodup) :
    ∃ r, (Block.save b e).result = Except.ok r
      ∧ r.tunes = (Block.save b e).newUnavailableTunesData
      ∧ (∀ (n : String) (d : Nat),
          (n, Block.TuneSaveHook.retVal d) ∈ b.tunesInstances ++ b.defaultTunesInstances →
            Block.lookupKey (Block.save b e).newUnavailableTunesData n = some d)
      ∧ (∀ k : String, (Block.lookupKey b.unavailableTunesData k).isSome →
          (Block.lookupKey (Block.save b e).newUnavailableTunesData k).isSome) := by
  rw [save_ok b e x hx]
  refine ⟨_, rfl, rfl, ?_, ?_⟩
  · intro n d hmem
    exact Block.applyTuneSaves_lookup_retVal _ _ n d hmem hnd
  · intro k hk
    exact Block.applyTuneSaves_isSome _ _ k hk

/-- C10 witness: saving `exampleBlock` returns a record whose tunes map
is the updated store, carrying the loaded payloads of "align" and
"anchor" and still an entry for the previously stored "ghost". -/
theorem c10_save_mutates_unavailable_store_witness :
    ∃ r, (Block.save Block.exampleBlock 0).result = Except.ok r
      ∧ r.tunes = (Block.save Block.exampleBlock 0).newUnavailableTunesData
      ∧ (∀ (n : String) (d : Nat),
          (n, Block.TuneSaveHook.retVal d) ∈
            Block.exampleBlock.tunesInstances ++ Block.exampleBlock.defaultTunesInstances →
            Block.lookupKey (Block.save Block.exampleBlock 0).newUnavailableTunesData n = some d)
      ∧ (∀ k : String, (Block.lookupKey Block.exampleBlock.unavailableTunesData k).isSome →
          (Block.lookupKey (Block.save Block.exampleBlock 0).newUnavailableTunesData k).isSome) :=
  c10_save_mutates_unavailable_store Block.exampleBlock 0 5 rfl (by decide)
